import Mathlib

/-!
Verification of the CogniScript RAG backend (CogniScript_Server).

Shallow embedding of the server's core utilities:
  * `utils/chroma_utils.py` — collection naming, document upload, query,
    deletion (ChromaDB state modelled as named collections of chunk ids,
    MongoDB `documents` as a list of descriptors);
  * `utils/doc_workflow.py` — chunk formatting and chunk-id assignment of
    `DocProcessor.process_pdf` (the PDF text extraction, the LangChain
    splitter and the embedding provider are parameters of the model);
  * `utils/llm_context_utils.py` — `LLMContextFormatter`'s pure formatting
    functions;
  * `utils/chat_utils.py` — `ChatUtils.add_assistant_response_to_chat` over
    one chat document.

Python strings are modelled as `List Char` (`Str`); Python `str.strip`,
`str.lower`, `str.split`, substring `in` and decimal rendering of ints are
modelled below. Only ASCII data is considered, which covers every literal
the source manipulates.
-/

/-- Python strings, modelled as lists of characters. -/
abbrev Str := List Char

/-- The whitespace characters `str.strip()` / `str.split()` use (ASCII part:
space, tab, newline, carriage return, vertical tab, form feed). -/
def isWsChar (c : Char) : Bool :=
  c = ' ' || c = '\t' || c = '\n' || c = '\r' || c = '\x0b' || c = '\x0c'

/-- Python `s.strip()`: drop leading and trailing whitespace. -/
def pyStrip (s : Str) : Str :=
  ((s.dropWhile isWsChar).reverse.dropWhile isWsChar).reverse

/-- Python `s.lower()` (ASCII case folding). -/
def pyLower (s : Str) : Str := s.map Char.toLower

/-- Python `s.split()`: split on runs of whitespace, discarding empty pieces. -/
def pySplitWs (s : Str) : List Str :=
  (s.splitOnP isWsChar).filter (fun w => !w.isEmpty)

/-- The decimal digit characters `'0'`..`'9'`. -/
def digitCh (n : Nat) : Char := Char.ofNat (48 + n)

/-- Decimal rendering of a natural number with explicit fuel; the fuel is
always instantiated with `n + 1`, which `natStr_roundtrip` shows suffices. -/
def natStrAux : Nat → Nat → Str
  | 0, _ => []
  | fuel + 1, n =>
    if n < 10 then [digitCh n]
    else natStrAux fuel (n / 10) ++ [digitCh (n % 10)]

/-- Python `str(n)` for a non-negative int: decimal rendering. -/
def natStr (n : Nat) : Str := natStrAux (n + 1) n

/-- Decimal re-parsing, used only to show `natStr` is injective. -/
def strToNat (s : Str) : Nat := s.foldl (fun a c => a * 10 + (c.toNat - 48)) 0

theorem strToNat_append (s t : Str) :
    strToNat (s ++ t) = t.foldl (fun a c => a * 10 + (c.toNat - 48)) (strToNat s) := by
  simp [strToNat, List.foldl_append]

theorem digitCh_toNat {n : Nat} (h : n < 10) : (digitCh n).toNat = 48 + n := by
  interval_cases n <;> decide

theorem natStrAux_roundtrip :
    ∀ fuel n, n < 10 ^ fuel → strToNat (natStrAux fuel n) = n := by
  intro fuel
  induction fuel with
  | zero =>
    intro n h
    have hn : n = 0 := by omega
    subst hn
    simp [natStrAux, strToNat]
  | succ fuel ih =>
    intro n h
    by_cases h10 : n < 10
    · simp only [natStrAux, if_pos h10, strToNat, List.foldl]
      rw [digitCh_toNat h10]
      omega
    · have hdiv : n / 10 < 10 ^ fuel := by
        have : n < 10 * 10 ^ fuel := by
          calc n < 10 ^ (fuel + 1) := h
          _ = 10 * 10 ^ fuel := by ring
        omega
      simp only [natStrAux, if_neg h10]
      rw [strToNat_append, ih (n / 10) hdiv]
      simp only [List.foldl]
      rw [digitCh_toNat (Nat.mod_lt n (by omega))]
      omega

theorem natStr_roundtrip (n : Nat) : strToNat (natStr n) = n := by
  apply natStrAux_roundtrip
  calc n < 10 ^ n := Nat.lt_pow_self (by omega) n
  _ ≤ 10 ^ (n + 1) := Nat.pow_le_pow_right (by omega) (Nat.le_succ n)

theorem natStr_injective : Function.Injective natStr := by
  intro a b h
  have := natStr_roundtrip a
  rw [h, natStr_roundtrip b] at this
  omega

/-- Python `" ".join(ts)`. -/
def joinSp : List Str → Str
  | [] => []
  | [t] => t
  | t :: rest => t ++ ' ' :: joinSp rest

/-- Whether `s` starts with `p` (helper for substring containment). -/
def startsWithList : Str → Str → Bool
  | _, [] => true
  | [], _ :: _ => false
  | c :: cs, d :: ds => c = d && startsWithList cs ds

/-- Python `needle in hay` for strings: contiguous substring containment. -/
def strContains (hay needle : Str) : Bool :=
  match hay with
  | [] => needle.isEmpty
  | _ :: cs => startsWithList hay needle || strContains cs needle

/-! ## Collection naming (`chroma_utils.py`)

Every method of `ChromaUtils` derives the ChromaDB collection name as
`f"{chat_id.replace('/', '_').replace('-', '_')}_docs"`. -/

/-- Python `chat_id.replace('/', '_').replace('-', '_')`. -/
def sanitizeChatId (s : Str) : Str :=
  (s.map (fun c => if c = '/' then '_' else c)).map (fun c => if c = '-' then '_' else c)

/-- The ChromaDB collection name derived from a chat id. -/
def collectionName (chat_id : Str) : Str := sanitizeChatId chat_id ++ ("_docs").data

/-! ## Server state

The vector index backend (ChromaDB) is modelled as a list of named
collections, each holding the list of chunk ids inserted into it; the
persisted document store (the MongoDB `documents` collection) as a list of
document descriptors. Only the descriptor fields the claims mention are
carried. -/

/-- The persisted document descriptor (`models/document.py` `DocumentModel`,
restricted to the fields the claims speak about). -/
structure DocRec where
  docId : Str
  chat_id : Str
  filename : Str
  pageCount : Nat
  previewText : Option Str
  chunk_ids : List Str
  deriving DecidableEq

/-- The two shared mutable stores: ChromaDB collections (name, chunk ids)
and the MongoDB `documents` collection. -/
structure ServerState where
  chroma : List (Str × List Str)
  docs : List DocRec
  deriving DecidableEq

/-- Whether a collection of this name exists (`chroma_client.get_collection`
succeeding vs raising). -/
def hasCollection (st : ServerState) (name : Str) : Bool :=
  st.chroma.any (fun c => c.1 = name)

/-- Appends ids to the named collection (`collection.add(ids=...)`). -/
def addToCollection (chroma : List (Str × List Str)) (name : Str) (ids : List Str) :
    List (Str × List Str) :=
  chroma.map (fun c => if c.1 = name then (c.1, c.2 ++ ids) else c)

/-- Removes the given ids from the named collection (`collection.delete(ids=ids)`). -/
def removeFromCollection (chroma : List (Str × List Str)) (name : Str) (ids : List Str) :
    List (Str × List Str) :=
  chroma.map (fun c => if c.1 = name then (c.1, c.2.filter (fun i => !ids.contains i)) else c)

/-! ## Query (`ChromaUtils.query_chat_docs`) -/

/-- Chunk metadata as the context formatter reads it: the four keys the
document-name fallback chain looks up (`metadata.get(...)`; a missing key is
`none`, and an empty string is present but falsy). -/
structure ChunkMeta where
  document_name : Option Str
  filename : Option Str
  source : Option Str
  document : Option Str
  deriving DecidableEq

/-- One raw nearest-neighbour hit of `collection.query` (parallel arrays
`ids`/`documents`/`distances`/`metadatas`, gathered per index). -/
structure RawHit where
  id : Str
  text : Str
  distance : ℚ
  meta : ChunkMeta
  deriving DecidableEq

/-- One formatted chunk of a successful `query_chat_docs` result. -/
structure Chunk where
  chunk_id : Str
  text : Str
  similarity_score : ℚ
  metadata : ChunkMeta
  relevance_rank : Nat
  deriving DecidableEq

/-- The dictionary `query_chat_docs` returns. `relevant_chunks` is read by
callers through `.get('relevant_chunks', [])`, so the failure dictionaries
(which carry no such key) are modelled with `[]`. -/
structure QueryResult where
  success : Bool
  relevant_chunks : List Chunk
  error : Option Str
  deriving DecidableEq

/-- The error string of the missing-collection failure dictionary. -/
def collectionNotFoundMsg : Str := ("Collection not found").data

/-- Model of `ChromaUtils.query_chat_docs`: `knn` stands for the composition
of `embedder.embed_query` and `collection.query` (collection name, query
text, `n_results` ↦ ranked hits by ascending distance). -/
def query_chat_docs (st : ServerState) (knn : Str → Str → Nat → List RawHit)
    (chat_id query : Str) (n_results : Nat) : QueryResult :=
  let name := collectionName chat_id
  if hasCollection st name then
    let hits := knn name query n_results
    { success := true
      relevant_chunks := hits.enum.map (fun p =>
        { chunk_id := p.2.id
          text := p.2.text
          similarity_score := 1 - p.2.distance
          metadata := p.2.meta
          relevance_rank := p.1 + 1 })
      error := none }
  else
    { success := false, relevant_chunks := [], error := some collectionNotFoundMsg }

/-! ## Deletion (`ChromaUtils.delete_chat_vector_db`) -/

/-- The result dictionary of `delete_chat_vector_db`. -/
structure DeleteResult where
  success : Bool
  error : Option Str
  mongodb_deleted_count : Option Nat
  deriving DecidableEq

/-- Model of `ChromaUtils.delete_chat_vector_db`: when the collection does
not exist, `chroma_client.delete_collection` raises and the inner `except`
returns the `'Collection not found'` failure with nothing touched; otherwise
the collection is deleted and then the MongoDB documents of the chat. -/
def delete_chat_vector_db (st : ServerState) (chat_id : Str) : DeleteResult × ServerState :=
  let name := collectionName chat_id
  if hasCollection st name then
    let st' : ServerState :=
      { chroma := st.chroma.filter (fun c => c.1 ≠ name)
        docs := st.docs.filter (fun d => d.chat_id ≠ chat_id) }
    ({ success := true
       error := none
       mongodb_deleted_count := some ((st.docs.filter (fun d => d.chat_id = chat_id)).length) },
     st')
  else
    ({ success := false, error := some collectionNotFoundMsg, mongodb_deleted_count := none }, st)

/-! ## Document processing (`doc_workflow.py` `DocProcessor`)

`extract_text_with_pages` (PyMuPDF) and the LangChain splitter are external
effects; the model takes the extracted pages and the splitter as parameters
and embeds the chunk bookkeeping of `chunk_text_with_metadata` and the
formatting loop of `process_pdf` exactly. -/

/-- One extracted page: cleaned text and its 1-indexed page number. -/
structure PageText where
  text : Str
  page_no : Nat
  deriving DecidableEq

/-- One chunk of `chunk_text_with_metadata`. -/
structure RawChunk where
  text : Str
  page_no : Nat
  chunk_in_page : Nat
  deriving DecidableEq

/-- Model of `DocProcessor.chunk_text_with_metadata`: `split` stands for
`splitter.split_text`. Per page, the split pieces are enumerated and the
whitespace-only ones discarded; kept pieces are stripped and tagged with the
page number and the 1-indexed enumeration position within the page. -/
def chunk_text_with_metadata (split : Str → List Str) (pages : List PageText) :
    List RawChunk :=
  pages.flatMap (fun pd =>
    (split pd.text).enum.filterMap (fun p =>
      if (pyStrip p.2).isEmpty then none
      else some { text := pyStrip p.2, page_no := pd.page_no, chunk_in_page := p.1 + 1 }))

/-- One formatted chunk of `process_pdf` (step 6): deterministic id
`f"{doc_id}_{chunk_idx + 1}"`, metadata `doc_name`/`pageNo`, embedding. -/
structure FChunk where
  chunk_id : Str
  text : Str
  doc_name : Str
  pageNo : Nat
  embedding : List ℚ
  deriving DecidableEq

/-- The value `process_pdf` returns: `{'docId': ..., 'chunks': ...}`. -/
structure ProcessedDoc where
  docId : Str
  chunks : List FChunk
  deriving DecidableEq

/-- Model of `DocProcessor.process_pdf` after extraction: `doc_id` stands for
the generated `uuid.uuid4()` string, `split` for the LangChain splitter and
`embed` for the embedding provider (one vector per chunk text, in order). -/
def process_pdf (doc_id doc_name : Str) (split : Str → List Str) (embed : Str → List ℚ)
    (pages : List PageText) : ProcessedDoc :=
  let chunks := chunk_text_with_metadata split pages
  let embedded := chunks.map (fun c => (c, embed c.text))
  { docId := doc_id
    chunks := embedded.enum.map (fun p =>
      { chunk_id := doc_id ++ '_' :: natStr (p.1 + 1)
        text := p.2.1.text
        doc_name := doc_name
        pageNo := p.2.1.page_no
        embedding := p.2.2 }) }

/-! ## Upload (`ChromaUtils.upload_document`)

The model starts where `process_pdf` has returned: it ensures the
collection, runs the chunk loop, `collection.add`, builds the
`DocumentModel` and attempts `docs_collection.insert_one`. The MongoDB call
has three observable outcomes: it returns a result with an `inserted_id`
(`ok`), it returns one without (`noId` — the `else` branch that cleans up
ChromaDB), or it raises (`raiseExc` — caught by the outer `except`, which
returns failure without touching ChromaDB). -/

/-- The three observable outcomes of `docs_collection.insert_one`. -/
inductive PersistOutcome
  | ok
  | noId
  | raiseExc
  deriving DecidableEq

/-- The result dictionary of `upload_document` (fields the claims use;
failure dictionaries carry no `chunk_ids` key, modelled as `[]`; the
constant `message` field is kept, the `error` field of the exception branch
is `str(e)` and is not modelled). -/
structure UploadResult where
  success : Bool
  chunk_ids : List Str
  message : Str
  deriving DecidableEq

/-- The `DocumentModel` built by `upload_document`: `pageCount` is the number
of distinct page numbers, `previewText` the first chunk's text truncated to
200 characters with `"..."` appended, `chunk_ids` the chunk ids in order. -/
def buildDescriptor (doc_id chat_id filename : Str) (chunks : List FChunk) : DocRec :=
  { docId := doc_id
    chat_id := chat_id
    filename := filename
    pageCount := (chunks.map (fun c => c.pageNo)).dedup.length
    previewText :=
      match chunks with
      | [] => none
      | c :: _ => some (c.text.take 200 ++ ("...").data)
    chunk_ids := chunks.map (fun c => c.chunk_id) }

/-- The `message` of the MongoDB-persistence failure dictionary. -/
def mongoStoreFailMsg : Str := ("Document processing failed").data

/-- The `message` of the outer `except Exception` failure dictionary. -/
def uploadExcMsg : Str := ("Failed to upload and process document").data

/-- The `message` of the success dictionary. -/
def uploadOkMsg : Str := ("Document uploaded and processed successfully").data

/-- Model of `ChromaUtils.upload_document` from the point where
`process_pdf` has produced `doc_id` and `chunks`. -/
def upload_document (st : ServerState) (chat_id doc_id filename : Str)
    (chunks : List FChunk) (outcome : PersistOutcome) : UploadResult × ServerState :=
  let name := collectionName chat_id
  let st0 : ServerState :=
    if hasCollection st name then st else { st with chroma := st.chroma ++ [(name, [])] }
  let ids := chunks.map (fun c => c.chunk_id)
  let st1 : ServerState := { st0 with chroma := addToCollection st0.chroma name ids }
  let descriptor := buildDescriptor doc_id chat_id filename chunks
  match outcome with
  | .ok =>
    ({ success := true, chunk_ids := ids, message := uploadOkMsg },
     { st1 with docs := st1.docs ++ [descriptor] })
  | .noId =>
    ({ success := false, chunk_ids := [], message := mongoStoreFailMsg },
     { st1 with chroma := removeFromCollection st1.chroma name ids })
  | .raiseExc =>
    ({ success := false, chunk_ids := [], message := uploadExcMsg }, st1)

/-! ## Context formatting (`llm_context_utils.py` `LLMContextFormatter`) -/

/-- One item of the formatted RAG context: `{"document": ..., "text": ...}`. -/
structure ContextItem where
  document : Str
  text : Str
  deriving DecidableEq

/-- Python truthiness of an optional string (`None` and `""` are falsy). -/
def truthyStr (o : Option Str) : Option Str :=
  match o with
  | some s => if s.isEmpty then none else some s
  | none => none

/-- The document-name fallback chain of `format_rag_context`:
`document_name or filename or source or document or f"Document_Chunk_{chunk_id}"`. -/
def resolveDocName (ch : Chunk) : Str :=
  (((truthyStr ch.metadata.document_name).or
      ((truthyStr ch.metadata.filename).or
        ((truthyStr ch.metadata.source).or
          (truthyStr ch.metadata.document)))).getD
    (("Document_Chunk_").data ++ ch.chunk_id))

/-- Model of `LLMContextFormatter.format_rag_context`. `none` models a falsy
`chroma_results` argument; an unsuccessful result yields `[]`; chunks whose
text strips to nothing are skipped. -/
def format_rag_context (chroma_results : Option QueryResult) : List ContextItem :=
  match chroma_results with
  | none => []
  | some qr =>
    if qr.success then
      qr.relevant_chunks.filterMap (fun ch =>
        let text := pyStrip ch.text
        if text.isEmpty then none
        else some { document := resolveDocName ch, text := text })
    else []

/-- Message role tag: the `"user"` / `"assistant"` literals of the source. -/
inductive MsgRole
  | user
  | assistant
  deriving DecidableEq

/-- One formatted history message `{"role": ..., "content": ...}`. -/
structure ChatMsg where
  role : MsgRole
  content : Str
  deriving DecidableEq

/-- One conversation entry as stored in a chat document: the fields
`format_chat_history` and `add_assistant_response_to_chat` read or write
(`timestamp` and `uploads` are never consulted by them). -/
structure ConvEntry where
  user : Str
  assistant : Str
  citations : List Str
  deriving DecidableEq

/-- Python `l[-k:]` for `k ≥ 0`: the last `k` elements, except that `k = 0`
yields the whole list (`-0 == 0`). `format_chat_history` only evaluates it
when `l.length > k`. -/
def pyTakeLast (l : List ConvEntry) (k : Nat) : List ConvEntry :=
  if k = 0 then l else l.drop (l.length - k)

/-- Model of `LLMContextFormatter.format_chat_history`: keeps
`conversation_history[-max_entries:]` when the history is longer than
`max_entries`, then emits a stripped user/assistant message pair for every
entry whose user and assistant texts are both non-empty after stripping. -/
def format_chat_history (conversation_history : List ConvEntry) (max_entries : Nat) :
    List ChatMsg :=
  let recent :=
    if conversation_history.length > max_entries then pyTakeLast conversation_history max_entries
    else conversation_history
  recent.flatMap (fun e =>
    let u := pyStrip e.user
    let a := pyStrip e.assistant
    if !u.isEmpty && !a.isEmpty then
      [{ role := .user, content := u }, { role := .assistant, content := a }]
    else [])

/-- One citation dictionary of `extract_citations_from_context` (`page` and
`link` are always `None` there). -/
structure Citation where
  citationId : Str
  source : Str
  text : Str
  page : Option Nat
  link : Option Str
  deriving DecidableEq

/-- The match heuristic of `extract_citations_from_context`: the document
label appears case-insensitively in the response, or one of the first 10
whitespace-separated words of the text does. -/
def citationMatch (resp : Str) (it : ContextItem) : Bool :=
  strContains (pyLower resp) (pyLower it.document) ||
    ((pySplitWs (pyLower it.text)).take 10).any (fun w => strContains (pyLower resp) w)

/-- Citation text: `text[:200] + "..."` when longer than 200 characters. -/
def citationText (text : Str) : Str :=
  if text.length > 200 then text.take 200 ++ ("...").data else text

/-- Model of `LLMContextFormatter.extract_citations_from_context`: a context
item is kept when `document and text and (match)` holds (so empty labels or
texts are always dropped); the citation id is `f"auto_citation_{i}"`. -/
def extract_citations_from_context (rag_context : List ContextItem)
    (assistant_response : Str) : List Citation :=
  rag_context.enum.filterMap (fun p =>
    if !p.2.document.isEmpty && !p.2.text.isEmpty && citationMatch assistant_response p.2 then
      some { citationId := ("auto_citation_").data ++ natStr p.1
             source := p.2.document
             text := citationText p.2.text
             page := none
             link := none }
    else none)

/-- The `len(text) // 4` token estimate (`estimate_token_count`). -/
def estimate_token_count (text : Str) : Nat := text.length / 4

/-- The greedy context loop of `truncate_context_if_needed`: keep items in
order while the running per-item estimate stays within the sub-budget, stop
at the first that would exceed it. -/
def truncCtxLoop : List ContextItem → Nat → Nat → List ContextItem
  | [], _, _ => []
  | item :: rest, cur, budget =>
    if cur + estimate_token_count item.text ≤ budget then
      item :: truncCtxLoop rest (cur + estimate_token_count item.text) budget
    else []

/-- The greedy history loop of `truncate_context_if_needed`, walking the
reversed history and re-inserting kept messages at the front (the argument
is the reversed history). -/
def truncHistLoop : List ChatMsg → Nat → Nat → List ChatMsg
  | [], _, _ => []
  | msg :: rest, cur, budget =>
    if cur + estimate_token_count msg.content ≤ budget then
      truncHistLoop rest (cur + estimate_token_count msg.content) budget ++ [msg]
    else []

/-- Model of `LLMContextFormatter.truncate_context_if_needed`. The entry
estimate joins the texts with `" ".join` before applying `len // 4`; the
greedy loops estimate each blob separately. The `except` fallback
(`rag_context[:5], chat_history[-5:]`) is unreachable in this pure model. -/
def truncate_context_if_needed (rag_context : List ContextItem)
    (chat_history : List ChatMsg) (max_tokens : Nat) : List ContextItem × List ChatMsg :=
  let context_tokens := estimate_token_count (joinSp (rag_context.map (fun it => it.text)))
  let history_tokens := estimate_token_count (joinSp (chat_history.map (fun m => m.content)))
  if context_tokens + history_tokens ≤ max_tokens then (rag_context, chat_history)
  else
    (truncCtxLoop rag_context 0 (max_tokens / 2),
     truncHistLoop chat_history.reverse 0 (max_tokens / 2))

/-! ## Assistant reply persistence (`chat_utils.py`
`ChatUtils.add_assistant_response_to_chat`) -/

/-- One chat document, restricted to its `conversation_history` field. -/
structure ChatDoc where
  conversation_history : List ConvEntry
  deriving DecidableEq

/-- Model of `ChatUtils.add_assistant_response_to_chat` over the one chat
document `find_one` can return (`none` when the chat does not exist). The
per-citation `CitationModel` re-wrapping is identity up to the generated
`citationId`, so the processed citation list is taken as given. Returns the
boolean result and the new state of that chat document. -/
def add_assistant_response_to_chat (chat : Option ChatDoc) (response : Str)
    (citations : List Str) : Bool × Option ChatDoc :=
  match chat with
  | none => (false, none)
  | some c =>
    match c.conversation_history.getLast? with
    | none => (false, some c)
    | some entry =>
      (true,
       some { conversation_history :=
                c.conversation_history.set (c.conversation_history.length - 1)
                  { entry with assistant := response, citations := citations } })

/-! ## Supporting lemmas -/

theorem sanitizeChatId_eq_self {s : Str} (h1 : '/' ∉ s) (h2 : '-' ∉ s) :
    sanitizeChatId s = s := by
  induction s with
  | nil => rfl
  | cons c cs ih =>
    simp only [List.mem_cons, not_or] at h1 h2
    have hc1 : ¬c = '/' := fun h => h1.1 h.symm
    have hc2 : ¬c = '-' := fun h => h2.1 h.symm
    simp only [sanitizeChatId, List.map_cons, if_neg hc1, if_neg hc2]
    exact congrArg (c :: ·) (ih h1.2 h2.2)

/-! ## C5 — collection naming -/

/-- C5 (counterexample): the chat ids `"a-b"` and `"a/b"` are distinct but
derive the same collection name, so the sanitisation is not collision-free. -/
theorem collectionName_collision :
    ("a-b").data ≠ ("a/b").data ∧
      collectionName (("a-b").data) = collectionName (("a/b").data) := by
  decide

/-- C5 (amended): the collection name is a deterministic function of the
conversation id, and it is injective on conversation ids that contain
neither `'/'` nor `'-'` (in particular on alphanumeric ids); distinct ids
that differ only in those separator characters can collide. -/
theorem collectionName_injective_without_separators (s1 s2 : Str)
    (h1 : '/' ∉ s1) (h2 : '-' ∉ s1) (h3 : '/' ∉ s2) (h4 : '-' ∉ s2)
    (heq : collectionName s1 = collectionName s2) : s1 = s2 := by
  rw [collectionName, collectionName, sanitizeChatId_eq_self h1 h2,
    sanitizeChatId_eq_self h3 h4] at heq
  exact List.append_cancel_right heq

/-- C5 (witness): the amended injectivity applied at the concrete ids
`"abc"` and `"abc"`. -/
theorem collectionName_injective_without_separators_witness :
    ("abc").data = ("abc").data :=
  collectionName_injective_without_separators (("abc").data) (("abc").data)
    (by decide) (by decide) (by decide) (by decide) (by decide)

/-! ## C1 — query on a missing collection -/

/-- C1 (counterexample): on a state with no collections, `query_chat_docs`
returns `success = False` with error `'Collection not found'`, not the
empty successful result the claim states. -/
theorem query_chat_docs_missing_collection_fails :
    (query_chat_docs ⟨[], []⟩ (fun _ _ _ => []) (("c").data) (("q").data) 7).success
        = false ∧
      (query_chat_docs ⟨[], []⟩ (fun _ _ _ => []) (("c").data) (("q").data) 7).error
        = some collectionNotFoundMsg := by
  decide

/-- C1 (amended): for every conversation id whose collection does not exist,
`query_chat_docs` returns the failure dictionary `success = False`, zero
chunks, error `'Collection not found'`; downstream, `format_rag_context`
turns that unsuccessful result into an empty context, so the turn proceeds
with no documents rather than an error. -/
theorem query_chat_docs_missing_collection (st : ServerState)
    (knn : Str → Str → Nat → List RawHit) (chat_id query : Str) (n_results : Nat)
    (h : hasCollection st (collectionName chat_id) = false) :
    query_chat_docs st knn chat_id query n_results =
        { success := false, relevant_chunks := [], error := some collectionNotFoundMsg } ∧
      format_rag_context (some (query_chat_docs st knn chat_id query n_results)) = [] := by
  constructor
  · simp [query_chat_docs, h]
  · simp [query_chat_docs, h, format_rag_context]

/-- C1 (witness): the amended statement at the empty state and a concrete
query. -/
theorem query_chat_docs_missing_collection_witness :
    query_chat_docs ⟨[], []⟩ (fun _ _ _ => []) (("c").data) (("q").data) 7 =
        { success := false, relevant_chunks := [], error := some collectionNotFoundMsg } ∧
      format_rag_context
          (some (query_chat_docs ⟨[], []⟩ (fun _ _ _ => []) (("c").data) (("q").data) 7)) = [] :=
  query_chat_docs_missing_collection ⟨[], []⟩ (fun _ _ _ => []) (("c").data) (("q").data) 7
    (by decide)

/-! ## C9 — deletion of a missing collection -/

/-- C9: when no vector collection exists for the conversation,
`delete_chat_vector_db` fails with `'Collection not found'` and the state —
in particular the descriptor store — is untouched; and whenever the
descriptor store did change, the collection existed and its deletion
succeeded first. -/
theorem delete_chat_vector_db_spec (st : ServerState) (chat_id : Str) :
    (hasCollection st (collectionName chat_id) = false →
        (delete_chat_vector_db st chat_id).1.success = false ∧
        (delete_chat_vector_db st chat_id).1.error = some collectionNotFoundMsg ∧
        (delete_chat_vector_db st chat_id).2 = st) ∧
      ((delete_chat_vector_db st chat_id).2.docs ≠ st.docs →
        (delete_chat_vector_db st chat_id).1.success = true ∧
        hasCollection st (collectionName chat_id) = true ∧
        hasCollection (delete_chat_vector_db st chat_id).2 (collectionName chat_id) = false) := by
  constructor
  · intro h
    refine ⟨?_, ?_, ?_⟩ <;> simp [delete_chat_vector_db, h]
  · intro hd
    by_cases hc : hasCollection st (collectionName chat_id) = true
    · refine ⟨by simp [delete_chat_vector_db, hc], hc, ?_⟩
      simp only [delete_chat_vector_db, hc, if_pos]
      simp only [hasCollection, List.any_eq_false, List.mem_filter]
      intro c hmem
      simpa using hmem.2
    · rw [Bool.not_eq_true] at hc
      exact absurd (by simp [delete_chat_vector_db, hc]) hd

/-! ## C2 — rollback when descriptor persistence fails -/

/-- The chunks of the C2 failing input, as `process_pdf` would deliver them. -/
def c2Chunks : List FChunk :=
  [{ chunk_id := ("d_1").data, text := ("t1").data, doc_name := ("f.pdf").data,
     pageNo := 1, embedding := [] },
   { chunk_id := ("d_2").data, text := ("t2").data, doc_name := ("f.pdf").data,
     pageNo := 1, embedding := [] }]

/-- C2 (code bug): if `docs_collection.insert_one` raises after
`collection.add` succeeded, `upload_document` takes the outer `except`
branch and returns failure WITHOUT deleting the inserted chunk ids — the
vector collection keeps `d_1, d_2` while no descriptor was persisted, so
the two stores disagree. By contrast, the handled failure mode (a result
without `inserted_id`) does roll the insertion back. -/
theorem upload_document_exception_leaves_orphans :
    ((upload_document ⟨[], []⟩ (("c").data) (("d").data) (("f.pdf").data)
          c2Chunks .raiseExc).1.success = false) ∧
      ((upload_document ⟨[], []⟩ (("c").data) (("d").data) (("f.pdf").data)
          c2Chunks .raiseExc).2.chroma =
        [(collectionName (("c").data), [("d_1").data, ("d_2").data])]) ∧
      ((upload_document ⟨[], []⟩ (("c").data) (("d").data) (("f.pdf").data)
          c2Chunks .raiseExc).2.docs = []) ∧
      ((upload_document ⟨[], []⟩ (("c").data) (("d").data) (("f.pdf").data)
          c2Chunks .noId).2.chroma = [(collectionName (("c").data), [])]) ∧
      ((upload_document ⟨[], []⟩ (("c").data) (("d").data) (("f.pdf").data)
          c2Chunks .noId).2.docs = []) := by
  decide

/-! ## C6 — writing the assistant reply -/

/-- The C6 counterexample chat: its single (hence most recent) entry already
carries a non-empty assistant reply. -/
def c6Chat : ChatDoc :=
  { conversation_history :=
      [{ user := ("hi").data, assistant := ("prev").data, citations := [] }] }

/-- C6 (counterexample): the most recent entry's assistant field is the
non-empty `"prev"`, yet the write is NOT rejected: it succeeds and
overwrites the reply, so the emptiness precondition the claim states is not
checked by the code. -/
theorem add_assistant_response_overwrites :
    (add_assistant_response_to_chat (some c6Chat) (("new").data) []).1 = true ∧
      (add_assistant_response_to_chat (some c6Chat) (("new").data) []).2 =
        some { conversation_history :=
                 [{ user := ("hi").data, assistant := ("new").data, citations := [] }] } := by
  decide

/-- C6 (amended): the write is rejected (failure, state unchanged) exactly
when the chat is missing or its history is empty; otherwise it succeeds and
replaces only the most recent entry — the prior entries are untouched and
the most recent entry keeps its user text while its assistant field becomes
the response, even when it already held a non-empty reply. -/
theorem add_assistant_response_spec (chat : Option ChatDoc) (response : Str)
    (citations : List Str) :
    ((chat = none ∨ ∃ c, chat = some c ∧ c.conversation_history = []) →
        (add_assistant_response_to_chat chat response citations).1 = false ∧
        (add_assistant_response_to_chat chat response citations).2 = chat) ∧
      (∀ c, chat = some c → c.conversation_history ≠ [] →
        (add_assistant_response_to_chat chat response citations).1 = true ∧
        ∃ e, c.conversation_history.getLast? = some e ∧
          (add_assistant_response_to_chat chat response citations).2 =
            some { conversation_history :=
                     c.conversation_history.dropLast ++
                       [{ e with assistant := response, citations := citations }] }) := by
  constructor
  · rintro (rfl | ⟨c, rfl, hnil⟩)
    · simp [add_assistant_response_to_chat]
    · simp [add_assistant_response_to_chat, hnil]
  · rintro c rfl hne
    rcases List.eq_nil_or_concat c.conversation_history with hnil | ⟨as, a, hconcat⟩
    · exact absurd hnil hne
    rw [List.concat_eq_append] at hconcat
    refine ⟨?_, a, ?_, ?_⟩
    · simp [add_assistant_response_to_chat, hconcat, List.getLast?_concat]
    · rw [hconcat]
      exact List.getLast?_concat as
    · simp only [add_assistant_response_to_chat, hconcat, List.getLast?_concat,
        List.dropLast_concat, List.length_append, List.length_cons, List.length_nil,
        Nat.add_sub_cancel]
      rw [List.set_append_right _ _ (Nat.le_refl _)]
      simp

/-! ## C10 — formatting retrieval results -/

theorem filterMap_eq_filterMap_filter {α β : Type} (f : α → Option β) (p : α → Bool)
    (hp : ∀ a, p a = false → f a = none) :
    ∀ l : List α, l.filterMap f = (l.filter p).filterMap f := by
  intro l
  induction l with
  | nil => rfl
  | cons a l ih =>
    by_cases hpa : p a = true
    · simp only [List.filterMap_cons, List.filter_cons, hpa, if_pos, ih]
    · rw [Bool.not_eq_true] at hpa
      simp only [List.filterMap_cons, hp a hpa, List.filter_cons, hpa]
      simpa using ih

/-- C10: `format_rag_context` yields the empty context for a missing or
unsuccessful retrieval result, every emitted item has non-empty text, and
chunks whose text strips to nothing are omitted (dropping them from the
input does not change the output). -/
theorem format_rag_context_spec :
    (format_rag_context none = []) ∧
      (∀ qr : QueryResult, qr.success = false → format_rag_context (some qr) = []) ∧
      (∀ qr : QueryResult, ∀ it ∈ format_rag_context (some qr), it.text ≠ []) ∧
      (∀ qr : QueryResult,
        format_rag_context (some qr) =
          format_rag_context
            (some { qr with
                      relevant_chunks :=
                        qr.relevant_chunks.filter (fun ch => !(pyStrip ch.text).isEmpty) })) := by
  refine ⟨rfl, fun qr h => by simp [format_rag_context, h], ?_, ?_⟩
  · intro qr it hit
    by_cases hs : qr.success = true
    · simp only [format_rag_context, hs, if_pos] at hit
      obtain ⟨ch, _, hch⟩ := List.mem_filterMap.mp hit
      by_cases he : (pyStrip ch.text).isEmpty = true
      · simp [he] at hch
      · simp only [he, Bool.false_eq_true, if_neg] at hch
        cases hch
        simpa using he
    · rw [Bool.not_eq_true] at hs
      simp [format_rag_context, hs] at hit
  · intro qr
    by_cases hs : qr.success = true
    · simp only [format_rag_context, hs, if_pos]
      exact filterMap_eq_filterMap_filter _ _
        (fun ch hch => by
          simp only [Bool.not_eq_false'] at hch
          simp [hch]) qr.relevant_chunks
    · rw [Bool.not_eq_true] at hs
      simp [format_rag_context, hs]

/-! ## C7 — formatting the chat history -/

/-- The history formatting as the spec words it: keep the most recent
`maxEntries` entries, keep only entries whose user and assistant texts are
both non-empty after stripping, and emit each as a user/assistant message
pair in chronological order. -/
def formatHistorySpec (hist : List ConvEntry) (maxEntries : Nat) : List ChatMsg :=
  ((hist.drop (hist.length - maxEntries)).filter
      (fun e => !(pyStrip e.user).isEmpty && !(pyStrip e.assistant).isEmpty)).flatMap
    (fun e =>
      [{ role := .user, content := pyStrip e.user },
       { role := .assistant, content := pyStrip e.assistant }])

theorem flatMap_if_eq_filter_flatMap {α β : Type} (p : α → Bool) (f : α → List β) :
    ∀ l : List α, (l.flatMap fun a => if p a then f a else []) = (l.filter p).flatMap f := by
  intro l
  induction l with
  | nil => rfl
  | cons a l ih =>
    by_cases hpa : p a = true
    · simp only [List.flatMap_cons, List.filter_cons, hpa, if_pos, ih]
    · rw [Bool.not_eq_true] at hpa
      simp only [List.flatMap_cons, List.filter_cons, hpa, if_neg, Bool.false_eq_true,
        not_false_iff, ih]
      simp

theorem pairsFlatMap_length (l : List ConvEntry) :
    (l.flatMap fun e =>
        [({ role := .user, content := pyStrip e.user } : ChatMsg),
         { role := .assistant, content := pyStrip e.assistant }]).length = 2 * l.length := by
  induction l with
  | nil => rfl
  | cons a l ih =>
    simp only [List.flatMap_cons, List.length_append, List.length_cons, List.length_nil, ih]
    ring

theorem pairsFlatMap_as_map (l : List ConvEntry) :
    (l.flatMap fun e =>
        [({ role := .user, content := pyStrip e.user } : ChatMsg),
         { role := .assistant, content := pyStrip e.assistant }]) =
      (l.map fun e => (pyStrip e.user, pyStrip e.assistant)).flatMap
        (fun p => [{ role := .user, content := p.1 }, { role := .assistant, content := p.2 }]) := by
  induction l with
  | nil => rfl
  | cons a l ih => simp only [List.flatMap_cons, List.map_cons, ih]

/-- The C7 counterexample entry: one complete user/assistant exchange. -/
def c7Entry : ConvEntry :=
  { user := ("hi").data, assistant := ("yo").data, citations := [] }

/-- C7 (counterexample): with `max_entries = 0` the claim demands that no
entry is kept, yet the Python slice `history[-0:]` is the whole list, so the
single complete pair is emitted instead of nothing. -/
theorem format_chat_history_zero_quirk :
    format_chat_history [c7Entry] 0 =
        [{ role := .user, content := ("hi").data },
         { role := .assistant, content := ("yo").data }] ∧
      format_chat_history [c7Entry] 0 ≠ [] := by
  decide

/-- C7 (amended, for `max_entries ≥ 1`; at `max_entries = 0` the slice quirk
keeps every entry instead): the formatted history keeps only the most
recent `max_entries` entries, emits exactly the entries among them whose
stripped user and assistant texts are both non-empty, as alternating
user/assistant pairs in chronological order; no emitted message is empty,
the output consists of matched pairs, and its length is even. -/
theorem format_chat_history_spec (hist : List ConvEntry) (max_entries : Nat)
    (hpos : 1 ≤ max_entries) :
    format_chat_history hist max_entries = formatHistorySpec hist max_entries ∧
      Even (format_chat_history hist max_entries).length ∧
      (∀ m ∈ format_chat_history hist max_entries, m.content ≠ []) ∧
      ∃ ps : List (Str × Str),
        format_chat_history hist max_entries =
            ps.flatMap (fun p =>
              [{ role := .user, content := p.1 }, { role := .assistant, content := p.2 }]) ∧
          ∀ p ∈ ps, p.1 ≠ [] ∧ p.2 ≠ [] := by
  have hrecent :
      (if hist.length > max_entries then pyTakeLast hist max_entries else hist) =
        hist.drop (hist.length - max_entries) := by
    by_cases hl : hist.length > max_entries
    · rw [if_pos hl, pyTakeLast, if_neg (by omega)]
    · rw [if_neg hl]
      have h0 : hist.length - max_entries = 0 := by omega
      rw [h0, List.drop_zero]
  have hmain :
      format_chat_history hist max_entries = formatHistorySpec hist max_entries := by
    rw [format_chat_history, formatHistorySpec]
    simp only [hrecent]
    exact flatMap_if_eq_filter_flatMap _ _ _
  refine ⟨hmain, ?_, ?_, ?_⟩
  · rw [hmain, formatHistorySpec, pairsFlatMap_length]
    exact even_two_mul _
  · intro m hm
    rw [hmain, formatHistorySpec] at hm
    obtain ⟨e, hemem, hin⟩ := List.mem_flatMap.mp hm
    have he := (List.mem_filter.mp hemem).2
    simp only [Bool.and_eq_true, Bool.not_eq_true', List.isEmpty_eq_false] at he
    simp only [List.mem_cons, List.mem_singleton] at hin
    rcases hin with rfl | rfl | h
    · exact he.1
    · exact he.2
    · cases h
  · refine ⟨((hist.drop (hist.length - max_entries)).filter
        (fun e => !(pyStrip e.user).isEmpty && !(pyStrip e.assistant).isEmpty)).map
          (fun e => (pyStrip e.user, pyStrip e.assistant)), ?_, ?_⟩
    · rw [hmain, formatHistorySpec, pairsFlatMap_as_map]
    · intro p hp
      obtain ⟨e, hemem, rfl⟩ := List.mem_map.mp hp
      have he := (List.mem_filter.mp hemem).2
      simp only [Bool.and_eq_true, Bool.not_eq_true', List.isEmpty_eq_false] at he
      exact he

/-- C7 (witness): the amended statement applied at a concrete history of
three entries (one incomplete) and `max_entries = 2`. -/
theorem format_chat_history_spec_witness :
    format_chat_history [c7Entry, c7Entry,
          { user := ("q").data, assistant := [], citations := [] }] 2 =
        formatHistorySpec [c7Entry, c7Entry,
          { user := ("q").data, assistant := [], citations := [] }] 2 ∧
      Even (format_chat_history [c7Entry, c7Entry,
          { user := ("q").data, assistant := [], citations := [] }] 2).length ∧
      (∀ m ∈ format_chat_history [c7Entry, c7Entry,
          { user := ("q").data, assistant := [], citations := [] }] 2, m.content ≠ []) ∧
      ∃ ps : List (Str × Str),
        format_chat_history [c7Entry, c7Entry,
            { user := ("q").data, assistant := [], citations := [] }] 2 =
            ps.flatMap (fun p =>
              [{ role := .user, content := p.1 }, { role := .assistant, content := p.2 }]) ∧
          ∀ p ∈ ps, p.1 ≠ [] ∧ p.2 ≠ [] :=
  format_chat_history_spec [c7Entry, c7Entry,
    { user := ("q").data, assistant := [], citations := [] }] 2 (by decide)

/-! ## C8 — citation extraction -/

theorem truthyStr_ne_nil {o : Option Str} {s : Str} (h : truthyStr o = some s) : s ≠ [] := by
  cases o with
  | none => simp [truthyStr] at h
  | some t =>
    by_cases ht : t.isEmpty = true
    · simp [truthyStr, ht] at h
    · simp [truthyStr, ht] at h
      rw [← h]
      simpa using ht

theorem resolveDocName_ne_nil (ch : Chunk) : resolveDocName ch ≠ [] := by
  unfold resolveDocName
  cases h1 : truthyStr ch.metadata.document_name with
  | some s => simp [Option.or, truthyStr_ne_nil h1]
  | none =>
    cases h2 : truthyStr ch.metadata.filename with
    | some s => simp [Option.or, truthyStr_ne_nil h2]
    | none =>
      cases h3 : truthyStr ch.metadata.source with
      | some s => simp [Option.or, truthyStr_ne_nil h3]
      | none =>
        cases h4 : truthyStr ch.metadata.document with
        | some s => simp [Option.or, truthyStr_ne_nil h4]
        | none =>
          simp only [Option.or, Option.getD_some, Option.getD_none]
          intro hc
          exact absurd (List.append_eq_nil.mp hc).1 (by decide)

/-- Every item produced by `format_rag_context` has a non-empty document
label and non-empty text. -/
theorem format_rag_context_items_nonempty (qr : Option QueryResult) :
    ∀ it ∈ format_rag_context qr, it.document ≠ [] ∧ it.text ≠ [] := by
  intro it hit
  cases qr with
  | none => cases hit
  | some qr =>
    by_cases hs : qr.success = true
    · simp only [format_rag_context, hs, if_pos] at hit
      obtain ⟨ch, _, hch⟩ := List.mem_filterMap.mp hit
      by_cases he : (pyStrip ch.text).isEmpty = true
      · simp [he] at hch
      · simp only [he, Bool.false_eq_true, if_neg] at hch
        cases hch
        exact ⟨resolveDocName_ne_nil ch, by simpa using he⟩
    · rw [Bool.not_eq_true] at hs
      simp [format_rag_context, hs] at hit

/-- Citation extraction as the spec words it: keep an item exactly when the
match heuristic fires, with the same id, source and truncated text. -/
def citationSpecList (rag_context : List ContextItem) (assistant_response : Str) :
    List Citation :=
  rag_context.enum.filterMap (fun p =>
    if citationMatch assistant_response p.2 then
      some { citationId := ("auto_citation_").data ++ natStr p.1
             source := p.2.document
             text := citationText p.2.text
             page := none
             link := none }
    else none)

/-- C8: on context lists whose items all have non-empty document labels and
texts (which `format_rag_context_items_nonempty` shows holds for every
formatted context), a context item becomes a citation exactly when its
label appears case-insensitively in the response or one of the first 10
words of its text does, and every citation's text is the item's text
truncated to 200 characters with an ellipsis when longer. -/
theorem extract_citations_spec (rag_context : List ContextItem) (assistant_response : Str)
    (h : ∀ it ∈ rag_context, it.document ≠ [] ∧ it.text ≠ []) :
    extract_citations_from_context rag_context assistant_response =
        citationSpecList rag_context assistant_response ∧
      (∀ c ∈ extract_citations_from_context rag_context assistant_response,
        ∃ it, it ∈ rag_context ∧ c.source = it.document ∧ c.text = citationText it.text) := by
  constructor
  · rw [extract_citations_from_context, citationSpecList]
    apply List.filterMap_congr
    intro p hp
    have hmem : p.2 ∈ rag_context :=
      List.get?_mem (List.mem_enum_iff_get?.mp hp)
    obtain ⟨hd, ht⟩ := h p.2 hmem
    have hd' : p.2.document.isEmpty = false := by simpa using hd
    have ht' : p.2.text.isEmpty = false := by simpa using ht
    simp [hd', ht']
  · intro c hc
    rw [extract_citations_from_context] at hc
    obtain ⟨p, hp, hpc⟩ := List.mem_filterMap.mp hc
    have hmem : p.2 ∈ rag_context :=
      List.get?_mem (List.mem_enum_iff_get?.mp hp)
    split_ifs at hpc with hcond
    · cases hpc
      exact ⟨p.2, hmem, rfl, rfl⟩


/-- C8 (witness): the statement at the spec's scenario — context item
`AI_Guide.pdf` and a response containing `ai_guide.pdf`. -/
theorem extract_citations_spec_witness :
    extract_citations_from_context
        [{ document := ("AI_Guide.pdf").data,
           text := ("Artificial Intelligence refers to...").data }]
        (("ai_guide.pdf discusses this").data) =
        citationSpecList
          [{ document := ("AI_Guide.pdf").data,
             text := ("Artificial Intelligence refers to...").data }]
          (("ai_guide.pdf discusses this").data) ∧
      (∀ c ∈ extract_citations_from_context
          [{ document := ("AI_Guide.pdf").data,
             text := ("Artificial Intelligence refers to...").data }]
          (("ai_guide.pdf discusses this").data),
        ∃ it, it ∈ [({ document := ("AI_Guide.pdf").data,
                       text := ("Artificial Intelligence refers to...").data } : ContextItem)] ∧
          c.source = it.document ∧ c.text = citationText it.text) :=
  extract_citations_spec
    [{ document := ("AI_Guide.pdf").data,
       text := ("Artificial Intelligence refers to...").data }]
    (("ai_guide.pdf discusses this").data) (by decide)

/-! ## C4 — token-budget truncation -/

/-- The sum of the per-item `len // 4` estimates of a context list. -/
def sumItemTok (ctx : List ContextItem) : Nat :=
  (ctx.map (fun it => estimate_token_count it.text)).sum

/-- The sum of the per-message `len // 4` estimates of a history list. -/
def sumMsgTok (hist : List ChatMsg) : Nat :=
  (hist.map (fun m => estimate_token_count m.content)).sum

theorem sum_div4_le_div4 : ∀ ls : List Nat, (ls.map (fun a => a / 4)).sum ≤ ls.sum / 4 := by
  intro ls
  induction ls with
  | nil => simp
  | cons a ls ih =>
    simp only [List.map_cons, List.sum_cons]
    have : a / 4 + (ls.map (fun a => a / 4)).sum ≤ a / 4 + ls.sum / 4 :=
      Nat.add_le_add_left ih (a / 4)
    refine this.trans ?_
    omega

theorem sum_lengths_le_joinSp_length :
    ∀ ts : List Str, (ts.map List.length).sum ≤ (joinSp ts).length := by
  intro ts
  induction ts with
  | nil => simp [joinSp]
  | cons t rest ih =>
    cases rest with
    | nil => simp [joinSp]
    | cons u rest' =>
      simp only [joinSp, List.map_cons, List.sum_cons, List.length_append,
        List.length_cons] at ih ⊢
      omega

/-- The per-item estimate sum is bounded by the joined-text estimate the
function computes on entry (joining adds a space per gap). -/
theorem sum_tok_le_joined (ts : List Str) :
    (ts.map (fun t => t.length / 4)).sum ≤ (joinSp ts).length / 4 := by
  have h1 : (ts.map (fun t => t.length / 4)).sum ≤ (ts.map List.length).sum / 4 := by
    have := sum_div4_le_div4 (ts.map List.length)
    simpa [List.map_map, Function.comp] using this
  exact h1.trans (Nat.div_le_div_right (sum_lengths_le_joinSp_length ts))

theorem truncCtxLoop_prefix :
    ∀ (l : List ContextItem) (cur budget : Nat), ∃ t, l = truncCtxLoop l cur budget ++ t := by
  intro l
  induction l with
  | nil => intro cur budget; exact ⟨[], rfl⟩
  | cons item rest ih =>
    intro cur budget
    by_cases hfit : cur + estimate_token_count item.text ≤ budget
    · obtain ⟨t, ht⟩ := ih (cur + estimate_token_count item.text) budget
      exact ⟨t, by rw [truncCtxLoop, if_pos hfit, List.cons_append, ← ht]⟩
    · exact ⟨item :: rest, by rw [truncCtxLoop, if_neg hfit, List.nil_append]⟩

theorem truncCtxLoop_budget :
    ∀ (l : List ContextItem) (cur budget : Nat), cur ≤ budget →
      cur + sumItemTok (truncCtxLoop l cur budget) ≤ budget := by
  intro l
  induction l with
  | nil => intro cur budget h; simpa [truncCtxLoop, sumItemTok] using h
  | cons item rest ih =>
    intro cur budget h
    by_cases hfit : cur + estimate_token_count item.text ≤ budget
    · rw [truncCtxLoop, if_pos hfit]
      have := ih (cur + estimate_token_count item.text) budget hfit
      simp only [sumItemTok, List.map_cons, List.sum_cons] at this ⊢
      omega
    · rw [truncCtxLoop, if_neg hfit]
      simpa [sumItemTok] using h

theorem truncHistLoop_take :
    ∀ (l : List ChatMsg) (cur budget : Nat),
      ∃ k, truncHistLoop l cur budget = (l.take k).reverse := by
  intro l
  induction l with
  | nil => intro cur budget; exact ⟨0, rfl⟩
  | cons msg rest ih =>
    intro cur budget
    by_cases hfit : cur + estimate_token_count msg.content ≤ budget
    · obtain ⟨k, hk⟩ := ih (cur + estimate_token_count msg.content) budget
      refine ⟨k + 1, ?_⟩
      rw [truncHistLoop, if_pos hfit, hk, List.take_succ_cons, List.reverse_cons]
    · exact ⟨0, by rw [truncHistLoop, if_neg hfit, List.take_zero, List.reverse_nil]⟩

theorem truncHistLoop_budget :
    ∀ (l : List ChatMsg) (cur budget : Nat), cur ≤ budget →
      cur + sumMsgTok (truncHistLoop l cur budget) ≤ budget := by
  intro l
  induction l with
  | nil => intro cur budget h; simpa [truncHistLoop, sumMsgTok] using h
  | cons msg rest ih =>
    intro cur budget h
    by_cases hfit : cur + estimate_token_count msg.content ≤ budget
    · rw [truncHistLoop, if_pos hfit]
      have := ih (cur + estimate_token_count msg.content) budget hfit
      simp only [sumMsgTok, List.map_append, List.sum_append, List.map_cons,
        List.sum_cons, List.map_nil, List.sum_nil] at this ⊢
      omega
    · rw [truncHistLoop, if_neg hfit]
      simpa [sumMsgTok] using h

/-- The C4 counterexample context: four items of 7 characters each. -/
def c4Ctx : List ContextItem :=
  List.replicate 4 { document := ("d").data, text := ("aaaaaaa").data }

/-- The C4 counterexample history: four messages of 7 characters each. -/
def c4Hist : List ChatMsg :=
  List.replicate 4 { role := .user, content := ("bbbbbbb").data }

/-- C4 (counterexample): with `max_tokens = 8` this input's joined-text
estimate is `7 + 7 = 14 > 8`, so the truncation branch runs — yet each item
estimates to `7 // 4 = 1` token, every item fits the `8 / 2 = 4` sub-budget,
and the function returns both inputs unchanged. The output's token estimate
by the function's own `len // 4` measure is still `14`, exceeding
`max_tokens`, and no fallback was involved. -/
theorem truncate_output_exceeds_budget :
    truncate_context_if_needed c4Ctx c4Hist 8 = (c4Ctx, c4Hist) ∧
      estimate_token_count (joinSp (c4Ctx.map (fun it => it.text))) +
        estimate_token_count (joinSp (c4Hist.map (fun m => m.content))) = 14 := by
  decide

/-- C4 (amended): `truncate_context_if_needed` returns both inputs
unmodified when the combined joined-text `len // 4` estimate fits
`max_tokens`; otherwise it keeps a greedy prefix of the context and a greedy
suffix of the history (most recent kept, chronological order preserved),
each within the `max_tokens / 2` sub-budget measured by per-item `len // 4`
sums — so the SUM OF PER-ITEM estimates of the output never exceeds
`max_tokens`. The joined-text estimate of the output (which also counts the
joining spaces) can exceed `max_tokens`. -/
theorem truncate_context_if_needed_spec (rag_context : List ContextItem)
    (chat_history : List ChatMsg) (max_tokens : Nat) :
    (estimate_token_count (joinSp (rag_context.map (fun it => it.text))) +
          estimate_token_count (joinSp (chat_history.map (fun m => m.content))) ≤ max_tokens →
        truncate_context_if_needed rag_context chat_history max_tokens =
          (rag_context, chat_history)) ∧
      (∃ t, rag_context =
        (truncate_context_if_needed rag_context chat_history max_tokens).1 ++ t) ∧
      (∃ t, chat_history =
        t ++ (truncate_context_if_needed rag_context chat_history max_tokens).2) ∧
      sumItemTok (truncate_context_if_needed rag_context chat_history max_tokens).1 +
          sumMsgTok (truncate_context_if_needed rag_context chat_history max_tokens).2 ≤
        max_tokens := by
  by_cases hb :
      estimate_token_count (joinSp (rag_context.map (fun it => it.text))) +
        estimate_token_count (joinSp (chat_history.map (fun m => m.content))) ≤ max_tokens
  · have heq : truncate_context_if_needed rag_context chat_history max_tokens =
        (rag_context, chat_history) := by
      simp only [truncate_context_if_needed]
      rw [if_pos hb]
    refine ⟨fun _ => heq, ⟨[], by rw [heq, List.append_nil]⟩, ⟨[], by rw [heq]; rfl⟩, ?_⟩
    rw [heq]
    show sumItemTok rag_context + sumMsgTok chat_history ≤ max_tokens
    have h1 : sumItemTok rag_context ≤
        estimate_token_count (joinSp (rag_context.map (fun it => it.text))) := by
      simpa [sumItemTok, estimate_token_count, List.map_map, Function.comp] using
        sum_tok_le_joined (rag_context.map (fun it => it.text))
    have h2 : sumMsgTok chat_history ≤
        estimate_token_count (joinSp (chat_history.map (fun m => m.content))) := by
      simpa [sumMsgTok, estimate_token_count, List.map_map, Function.comp] using
        sum_tok_le_joined (chat_history.map (fun m => m.content))
    omega
  · have heq : truncate_context_if_needed rag_context chat_history max_tokens =
        (truncCtxLoop rag_context 0 (max_tokens / 2),
         truncHistLoop chat_history.reverse 0 (max_tokens / 2)) := by
      simp only [truncate_context_if_needed]
      rw [if_neg hb]
    refine ⟨fun h => absurd h hb, ?_, ?_, ?_⟩
    · rw [heq]
      exact truncCtxLoop_prefix rag_context 0 (max_tokens / 2)
    · rw [heq]
      obtain ⟨k, hk⟩ := truncHistLoop_take chat_history.reverse 0 (max_tokens / 2)
      refine ⟨(chat_history.reverse.drop k).reverse, ?_⟩
      rw [hk, ← List.reverse_append, List.take_append_drop, List.reverse_reverse]
    · rw [heq]
      show sumItemTok (truncCtxLoop rag_context 0 (max_tokens / 2)) +
          sumMsgTok (truncHistLoop chat_history.reverse 0 (max_tokens / 2)) ≤ max_tokens
      have h1 := truncCtxLoop_budget rag_context 0 (max_tokens / 2) (Nat.zero_le _)
      have h2 := truncHistLoop_budget chat_history.reverse 0 (max_tokens / 2) (Nat.zero_le _)
      omega

/-! ## C3 — chunk-id assignment and the persisted descriptor -/

theorem enum_map_fst {α β : Type} (l : List α) (f : Nat → β) :
    l.enum.map (fun p => f p.1) = (List.range l.length).map f := by
  rw [List.enum_eq_zip_range]
  have hcomp : (fun p : Nat × α => f p.1) = f ∘ Prod.fst := rfl
  rw [hcomp, ← List.map_map, List.map_fst_zip _ _ (by simp)]

theorem formatted_ids (doc_id doc_name : Str) (embedded : List (RawChunk × List ℚ)) :
    ((embedded.enum.map (fun p =>
        ({ chunk_id := doc_id ++ '_' :: natStr (p.1 + 1), text := p.2.1.text,
           doc_name := doc_name, pageNo := p.2.1.page_no,
           embedding := p.2.2 } : FChunk))).map (fun c => c.chunk_id)) =
      (List.range embedded.length).map (fun i => doc_id ++ '_' :: natStr (i + 1)) := by
  rw [List.map_map]
  have hcomp : ((fun c : FChunk => c.chunk_id) ∘ fun p : Nat × (RawChunk × List ℚ) =>
      ({ chunk_id := doc_id ++ '_' :: natStr (p.1 + 1), text := p.2.1.text,
         doc_name := doc_name, pageNo := p.2.1.page_no,
         embedding := p.2.2 } : FChunk)) =
      fun p : Nat × (RawChunk × List ℚ) => doc_id ++ '_' :: natStr (p.1 + 1) := rfl
  rw [hcomp]
  exact enum_map_fst embedded (fun i => doc_id ++ '_' :: natStr (i + 1))

theorem chunkIdFun_injective (doc_id : Str) :
    Function.Injective (fun i : Nat => doc_id ++ '_' :: natStr (i + 1)) := by
  intro a b h
  have h2 : '_' :: natStr (a + 1) = '_' :: natStr (b + 1) := List.append_cancel_left h
  have h3 : natStr (a + 1) = natStr (b + 1) := by injection h2
  have h4 := natStr_injective h3
  omega

/-- C3: the chunk ids `process_pdf` assigns are exactly
`doc_id_1 … doc_id_N` for its `N` chunks — one running decimal counter over
all chunks of all pages in order, with no gaps and no duplicates — and the
descriptor persisted by a successful `upload_document` carries exactly this
id list, so its length equals the number of chunks produced. -/
theorem process_pdf_chunk_ids_spec (doc_id doc_name : Str) (split : Str → List Str)
    (embed : Str → List ℚ) (pages : List PageText) (st : ServerState)
    (chat_id filename : Str) :
    ((process_pdf doc_id doc_name split embed pages).chunks.map (fun c => c.chunk_id) =
        (List.range (process_pdf doc_id doc_name split embed pages).chunks.length).map
          (fun i => doc_id ++ '_' :: natStr (i + 1))) ∧
      ((process_pdf doc_id doc_name split embed pages).chunks.map
        (fun c => c.chunk_id)).Nodup ∧
      ((upload_document st chat_id doc_id filename
          (process_pdf doc_id doc_name split embed pages).chunks .ok).2.docs =
        st.docs ++ [buildDescriptor doc_id chat_id filename
          (process_pdf doc_id doc_name split embed pages).chunks]) ∧
      ((buildDescriptor doc_id chat_id filename
          (process_pdf doc_id doc_name split embed pages).chunks).chunk_ids =
        (process_pdf doc_id doc_name split embed pages).chunks.map (fun c => c.chunk_id)) ∧
      ((buildDescriptor doc_id chat_id filename
          (process_pdf doc_id doc_name split embed pages).chunks).chunk_ids.length =
        (process_pdf doc_id doc_name split embed pages).chunks.length) := by
  have h1 : (process_pdf doc_id doc_name split embed pages).chunks.map
      (fun c => c.chunk_id) =
      (List.range (process_pdf doc_id doc_name split embed pages).chunks.length).map
        (fun i => doc_id ++ '_' :: natStr (i + 1)) := by
    simp only [process_pdf]
    rw [List.length_map, List.enum_length]
    exact formatted_ids doc_id doc_name _
  refine ⟨h1, ?_, ?_, rfl, by simp [buildDescriptor]⟩
  · rw [h1]
    exact (List.nodup_range _).map (chunkIdFun_injective doc_id)
  · by_cases hcol : hasCollection st (collectionName chat_id) = true
    · simp [upload_document, hcol]
    · rw [Bool.not_eq_true] at hcol
      simp [upload_document, hcol]
